import Mathlib

/-!
Verification of `nursepy` (`src/nursepy/preproc.py`) against its
natural-language specification.

The single entry point `preproc` is shallowly embedded below:

* pandas DataFrames become `Table` (an ordered list of named, dtyped columns);
* cell values become `Value` (rationals for float64/int64 cells, strings,
  booleans, and a missing-value marker `na`);
* sklearn's `ColumnTransformer` with the five transformer groups of the
  source becomes `Transformer` / `Fitted` with explicit fit and transform
  functions (fit-time statistics, column ordering of the output matrix,
  remainder columns tracked by position exactly as sklearn does);
* sklearn's `LabelEncoder` becomes `leFit` / `leTransform` (`fit` sorts the
  unique class values, as `numpy.unique` does; the caller-provided order is
  NOT preserved);
* Python's dynamic argument-type check at the top of `preproc` becomes a
  `PyVal` runtime-value layer with `checkArgs`;
* the object-identity / in-place-mutation facts (`X_train.copy()`, column
  assignment) are modelled once more in `preprocH`, where tables live in an
  explicit heap of table objects and `copy` allocates.

Modelling notes (all marked again at the definitions concerned):
* float64 arithmetic is modelled by exact rationals; `sqrt` is exact on
  perfect squares (`sqrtQ`), and no theorem below depends on scaled values;
* `numpy.unique` on a homogeneous object column sorts by the underlying
  Python order; `valueLE` fixes a total order agreeing with it on
  homogeneous data (strings lexicographic, numbers by value).
-/

namespace Nursepy

/-- A cell value of a pandas column: float64/int64 cells are modelled by
exact rationals, plus strings, booleans and the missing marker (NaN/None). -/
inductive Value where
  | num (q : ℚ)
  | str (s : String)
  | bool (b : Bool)
  | na
deriving DecidableEq, Repr

/-- The pandas dtypes that `preproc` distinguishes: exactly the five names
appearing in the two `select_dtypes(include=...)` calls of the source. -/
inductive Dtype where
  | float64
  | int64
  | object
  | bool
  | category
deriving DecidableEq, Repr

/-- One named column of a DataFrame. -/
structure Column where
  name : String
  dtype : Dtype
  values : List Value
deriving DecidableEq, Repr

/-- A pandas DataFrame: an ordered collection of named columns. -/
structure Table where
  cols : List Column
deriving DecidableEq, Repr

def Table.names (T : Table) : List String := T.cols.map (·.name)

def Table.valuesList (T : Table) : List (List Value) := T.cols.map (·.values)

/-- The errors the source can raise, abstracted from the Python exception
classes: `ValueError` from the argument type check (`TypeMismatch` in the
spec), the two bare `Exception`s of the auto-mode conflict check
(`ConfigConflict`), sklearn's unseen-label `ValueError` from
`LabelEncoder.transform` (`UnseenLabel`), sklearn's unknown-category error
from `OneHotEncoder.transform`, pandas `KeyError` on a missing column,
pandas shape mismatch in the `pd.DataFrame(data, columns)` constructor, and
sklearn's `ValueError` on non-numeric data fed to a numeric step. -/
inductive PyType where
  | dataframe
  | nonetype
  | bool
  | list
  | ndarray
  | dict
  | tuple
  | str
  | int
deriving DecidableEq, Repr

inductive Err where
  | typeMismatch (arg : String) (permitted : List PyType) (actual : PyType)
  | configConflict (arg : String)
  | unseenLabel (v : Value)
  | unknownCategory (col : String)
  | keyError (col : String)
  | shapeMismatch
  | valueError (col : String)
deriving DecidableEq, Repr

/-- A Python runtime value as seen by the dynamic type check at the top of
`preproc` (`args = locals().copy()` and the `arg_types` table). Only the
payloads the function actually consumes are carried. -/
inductive PyVal where
  | dataframe (t : Table)
  | pynone
  | pybool (b : Bool)
  | pylist (xs : List String)
  | ndarray (xs : List String)
  | pydict (m : List (String × List Value))
  | pytuple (xs : List String)
  | pystr (s : String)
  | pyint (n : Int)
deriving DecidableEq, Repr

def pyTypeOf : PyVal → PyType
  | .dataframe _ => .dataframe
  | .pynone => .nonetype
  | .pybool _ => .bool
  | .pylist _ => .list
  | .ndarray _ => .ndarray
  | .pydict _ => .dict
  | .pytuple _ => .tuple
  | .pystr _ => .str
  | .pyint _ => .int

/-! ## Value ordering and `numpy.unique`

`LabelEncoder.fit` and `OneHotEncoder.fit` both take the sorted unique
values of their input (`numpy.unique`). `valueLE` is a total order on
`Value` agreeing with the Python order on homogeneous data (the only data
`numpy` can sort): rationals by value, strings lexicographically, booleans
with `False < True`. The cross-constructor rank is a modelling choice
(mixed-type object columns make `numpy.unique` raise in Python 3 and are
not exercised by any theorem below). -/

def Value.rank : Value → Nat
  | .na => 0
  | .bool _ => 1
  | .num _ => 2
  | .str _ => 3

/-- Strict lexicographic order on character lists by Unicode code point —
Python's string `<`. (Lean's own `String.ltb` is the same order but is
defined by well-founded recursion, which blocks kernel evaluation.) -/
def strLexLTb : List Char → List Char → Bool
  | [], [] => false
  | [], _ :: _ => true
  | _ :: _, [] => false
  | a :: as, b :: bs =>
    if a.toNat < b.toNat then true
    else if b.toNat < a.toNat then false
    else strLexLTb as bs

def valueLEb (a b : Value) : Bool :=
  if a.rank = b.rank then
    match a, b with
    | .num x, .num y => decide (x ≤ y)
    | .str x, .str y => !(strLexLTb y.data x.data)
    | .bool x, .bool y => !x || y
    | _, _ => true
  else decide (a.rank < b.rank)

def valueLE (a b : Value) : Prop := valueLEb a b = true

instance : DecidableRel valueLE := fun a b =>
  instDecidableEqBool (valueLEb a b) true

/-- `numpy.unique`: the sorted list of distinct values. -/
def npUnique (l : List Value) : List Value :=
  List.insertionSort valueLE l.dedup

theorem mem_npUnique (v : Value) (l : List Value) : v ∈ npUnique l ↔ v ∈ l := by
  unfold npUnique
  rw [(List.perm_insertionSort valueLE l.dedup).mem_iff, List.mem_dedup]

/-! ## Error propagation (a raised Python exception aborts the call) -/

/-- Run `e`; on an exception propagate it, otherwise continue with `f`. -/
def bindE (e : Except Err γ) (f : γ → Except Err δ) : Except Err δ :=
  match e with
  | .error err => .error err
  | .ok x => f x

theorem bindE_error (e : Err) (f : γ → Except Err δ) :
    bindE (.error e) f = .error e := rfl

theorem bindE_ok (x : γ) (f : γ → Except Err δ) : bindE (.ok x) f = f x := rfl

theorem bindE_eq_ok {e : Except Err γ} {f : γ → Except Err δ} {y : δ}
    (h : bindE e f = .ok y) : ∃ x, e = .ok x ∧ f x = .ok y := by
  cases e with
  | error err => cases h
  | ok x => exact ⟨x, rfl, h⟩

/-! ## Error-propagating list map (the vectorised sklearn operations) -/

def mapExcept (f : α → Except Err β) : List α → Except Err (List β)
  | [] => .ok []
  | a :: l =>
    bindE (f a) fun b =>
      bindE (mapExcept f l) fun bs => .ok (b :: bs)

theorem mapExcept_ok_of_forall (f : α → Except Err β) (g : α → β) (l : List α)
    (h : ∀ a ∈ l, f a = .ok (g a)) : mapExcept f l = .ok (l.map g) := by
  induction l with
  | nil => rfl
  | cons a l ih =>
    have ha := h a (List.mem_cons_self a l)
    have hl := ih (fun x hx => h x (List.mem_cons_of_mem a hx))
    simp [mapExcept, ha, hl, bindE]

/-! ## LabelEncoder

`LabelEncoder().fit(y)` stores `classes_ = numpy.unique(y)` — the SORTED
distinct values, not the caller's order. `transform` maps each value to
its index in `classes_` and raises on a value outside them. -/

def leFit (cats : List Value) : List Value := npUnique cats

def leTransformOne (classes : List Value) (v : Value) : Except Err Value :=
  match classes.findIdx? (· == v) with
  | some i => .ok (.num i)
  | none => .error (.unseenLabel v)

def leTransform (classes : List Value) (vals : List Value) : Except Err (List Value) :=
  mapExcept (leTransformOne classes) vals

/-! ## Column access / column assignment -/

/-- `T[c]` on a DataFrame: the (first) column named `c`, else `KeyError`. -/
def Table.getColVals (T : Table) (c : String) : Except Err (List Value) :=
  match T.cols.find? (fun col => col.name == c) with
  | some col => .ok col.values
  | none => .error (.keyError c)

/-- `T[c] = vals` on a DataFrame. In this program the assigned values are
always the integer codes of a `LabelEncoder`, so the column dtype becomes
int64. Assignment to an absent name appends a new column (pandas), though
the program only assigns after a successful read. -/
def setColList : List Column → String → List Value → List Column
  | [], c, vals => [⟨c, .int64, vals⟩]
  | col :: rest, c, vals =>
    if col.name = c then { col with dtype := Dtype.int64, values := vals } :: rest
    else col :: setColList rest c vals

def Table.setCol (T : Table) (c : String) (vals : List Value) : Table :=
  ⟨setColList T.cols c vals⟩

/-! ## The label-encoding pass (the final `for column in le_columns` loop) -/

def labelEncodePass : List (String × List Value) → Table → Option Table →
    Except Err (Table × Option Table)
  | [], Xtr, Xte => .ok (Xtr, Xte)
  | (col, cats) :: rest, Xtr, Xte =>
    let classes := leFit cats
    bindE (Xtr.getColVals col) fun trVals =>
      bindE (leTransform classes trVals) fun trNew =>
        let Xtr2 := Xtr.setCol col trNew
        match Xte with
        | none => labelEncodePass rest Xtr2 none
        | some T =>
          bindE (T.getColVals col) fun teVals =>
            bindE (leTransform classes teVals) fun teNew =>
              labelEncodePass rest Xtr2 (some (T.setCol col teNew))

/-! ## Numeric statistics of the sklearn steps

sklearn computes these in float64; they are modelled by exact rationals.
`sqrtQ` is exact on perfect-square rationals (no theorem below depends on a
scaled value, only on which columns are scaled and where they land). -/

def numsOf (l : List Value) : List ℚ :=
  l.filterMap (fun v => match v with | .num q => some q | _ => none)

def meanQ (l : List ℚ) : ℚ := l.sum / l.length

def popVarQ (l : List ℚ) : ℚ :=
  ((l.map (fun x => (x - meanQ l) ^ 2)).sum) / l.length

def sqrtQ (q : ℚ) : ℚ := (Nat.sqrt q.num.toNat : ℚ) / (Nat.sqrt q.den : ℚ)

def sortQ (l : List ℚ) : List ℚ := List.insertionSort (fun a b : ℚ => a ≤ b) l

/-- `numpy.median`: middle element of the sorted data, or the average of the
two middle elements (0 on empty data, an edge no theorem exercises). -/
def medianQ (l : List ℚ) : ℚ :=
  let s := sortQ l
  let n := s.length
  if n = 0 then 0
  else if n % 2 = 1 then s.getD (n / 2) 0
  else (s.getD (n / 2 - 1) 0 + s.getD (n / 2) 0) / 2

/-- `numpy.percentile` with linear interpolation (the default used by
`RobustScaler`). -/
def percentileQ (l : List ℚ) (p : ℚ) : ℚ :=
  let s := sortQ l
  let n := s.length
  if n = 0 then 0
  else
    let pos : ℚ := ((n : ℚ) - 1) * p / 100
    let i : ℕ := pos.floor.toNat
    let lo := s.getD i 0
    lo + (pos - (i : ℚ)) * (s.getD (i + 1) lo - lo)

/-- `sklearn`'s `_handle_zeros_in_scale`: a zero scale becomes 1. -/
def nonzeroScale (s : ℚ) : ℚ := if s = 0 then 1 else s

/-! ## The ColumnTransformer of the source

The source builds one `ColumnTransformer` with five transformer groups, in
this order: `cat_imputer` (constant fill "missing"), `num_imputer`
(median), `one_hot` (`drop='first'` in auto mode only), `standard_scalar`,
`robust_scalar`, with `remainder='passthrough'`. -/

structure Transformer where
  catImpute : List String
  numImpute : List String
  oneHot : List String
  standardScale : List String
  robustScale : List String
  dropFirst : Bool
deriving DecidableEq, Repr

/-- The fitted state: per-column learned parameters plus the remainder
columns. sklearn remembers remainder columns by POSITION at fit time and
picks those positions again at transform time. -/
structure Fitted where
  cfg : Transformer
  numImputeStats : List (String × ℚ)
  oneHotCats : List (String × List Value)
  standardStats : List (String × ℚ × ℚ)
  robustStats : List (String × ℚ × ℚ)
  remainderIdx : List Nat
deriving DecidableEq, Repr

/-- A numeric sklearn step rejects non-numeric data (`check_array`); with
its default `force_all_finite=True` it also rejects NaN. -/
def requireNums (c : String) (l : List Value) : Except Err (List ℚ) :=
  mapExcept
    (fun v => match v with
      | Value.num q => .ok q
      | _ => .error (.valueError c)) l

/-- `SimpleImputer` accepts missing values; other non-numeric data is
rejected by a median-strategy imputer. -/
def requireNumsOrNa (c : String) (l : List Value) : Except Err Unit :=
  if l.all (fun v => match v with | Value.num _ => true | Value.na => true | _ => false)
  then .ok () else .error (.valueError c)

def remainderIdxOf (T : Table) (claimed : List String) : List Nat :=
  (T.cols.enum.filter (fun p => !claimed.contains p.2.name)).map (·.1)

def Transformer.fit (t : Transformer) (T : Table) : Except Err Fitted :=
  bindE (mapExcept (fun c => (T.getColVals c).map (fun _ => c)) t.catImpute)
    fun _ =>
  bindE (mapExcept
      (fun c => bindE (T.getColVals c) fun vs =>
        bindE (requireNumsOrNa c vs) fun _ =>
          .ok (c, medianQ (numsOf vs))) t.numImpute)
    fun numStats =>
  bindE (mapExcept
      (fun c => (T.getColVals c).map (fun vs => (c, npUnique vs))) t.oneHot)
    fun oheCats =>
  bindE (mapExcept
      (fun c => bindE (T.getColVals c) fun vs =>
        bindE (requireNums c vs) fun ns =>
          .ok (c, meanQ ns, nonzeroScale (sqrtQ (popVarQ ns))))
      t.standardScale)
    fun stdStats =>
  bindE (mapExcept
      (fun c => bindE (T.getColVals c) fun vs =>
        bindE (requireNums c vs) fun ns =>
          .ok (c, medianQ ns,
            nonzeroScale (percentileQ ns 75 - percentileQ ns 25)))
      t.robustScale)
    fun robStats =>
  .ok { cfg := t
        numImputeStats := numStats
        oneHotCats := oheCats
        standardStats := stdStats
        robustStats := robStats
        remainderIdx := remainderIdxOf T
          (t.catImpute ++ t.numImpute ++ t.oneHot ++
            t.standardScale ++ t.robustScale) }

/-- The categories a fitted `OneHotEncoder` expands into indicator columns:
all of them, or all but the (sorted-)first with `drop='first'`. -/
def oneHotKept (dropFirst : Bool) (cats : List Value) : List Value :=
  if dropFirst then cats.drop 1 else cats

/-- `OneHotEncoder.transform` on one column: with the default
`handle_unknown='error'`, a value outside the fitted categories raises;
otherwise each kept category yields a 0/1 indicator column (a value equal
to a dropped category encodes as all zeros, not an error). -/
def transformOneHotCol (dropFirst : Bool) (c : String) (cats : List Value)
    (vs : List Value) : Except Err (List (List Value)) :=
  if vs.all (fun v => cats.contains v) then
    .ok ((oneHotKept dropFirst cats).map
      (fun k => vs.map (fun v => if v = k then Value.num 1 else Value.num 0)))
  else .error (.unknownCategory c)

def Fitted.transform (f : Fitted) (T : Table) : Except Err (List (List Value)) :=
  bindE (mapExcept
      (fun c => (T.getColVals c).map
        (fun vs => vs.map (fun v => if v = Value.na then Value.str "missing" else v)))
      f.cfg.catImpute)
    fun catCols =>
  bindE (mapExcept
      (fun p => bindE (T.getColVals p.1) fun vs =>
        mapExcept
          (fun v => match v with
            | Value.num q => .ok (Value.num q)
            | Value.na => .ok (Value.num p.2)
            | _ => .error (.valueError p.1)) vs)
      f.numImputeStats)
    fun numCols =>
  bindE (mapExcept
      (fun p => bindE (T.getColVals p.1) fun vs =>
        transformOneHotCol f.cfg.dropFirst p.1 p.2 vs)
      f.oneHotCats)
    fun oheColss =>
  bindE (mapExcept
      (fun p => bindE (T.getColVals p.1) fun vs =>
        mapExcept
          (fun v => match v with
            | Value.num q => .ok (Value.num ((q - p.2.1) / p.2.2))
            | _ => .error (.valueError p.1)) vs)
      f.standardStats)
    fun stdCols =>
  bindE (mapExcept
      (fun p => bindE (T.getColVals p.1) fun vs =>
        mapExcept
          (fun v => match v with
            | Value.num q => .ok (Value.num ((q - p.2.1) / p.2.2))
            | _ => .error (.valueError p.1)) vs)
      f.robustStats)
    fun robCols =>
  bindE (mapExcept
      (fun i => match T.cols.get? i with
        | some col => .ok col.values
        | none => .error (.keyError "remainder")) f.remainderIdx)
    fun remCols =>
  .ok (catCols ++ numCols ++ oheColss.flatten ++ stdCols ++ robCols ++ remCols)

/-- How a category value is rendered inside a generated one-hot column
name. -/
def showValue : Value → String
  | .str s => s
  | .num q => toString q
  | .bool b => if b then "True" else "False"
  | .na => "nan"

/-- `OneHotEncoder.get_feature_names(input_features)`: one name per
produced indicator column, `<source column>_<category>`, for the retained
(non-dropped) categories. -/
def Fitted.getFeatureNames (f : Fitted) : List String :=
  (f.oneHotCats.map
    (fun p => (oneHotKept f.cfg.dropFirst p.2).map
      (fun k => p.1 ++ "_" ++ showValue k))).flatten

/-- `pd.DataFrame(data=matrix, columns=names)`: raises unless the column
counts agree; the constructed columns carry dtype `object` (ndarray dtype
promotion is not modelled; no theorem inspects output dtypes). -/
def mkDataFrame (data : List (List Value)) (names : List String) : Except Err Table :=
  if data.length = names.length then
    .ok ⟨(names.zip data).map (fun p => ⟨p.1, Dtype.object, p.2⟩)⟩
  else .error .shapeMismatch

/-! ## preproc -/

/-- The auto-mode conflict check: the source loops over the literal list
`[OHE, standard_scale, robust_scale, numerical_impute, categorical_impute]`
raising on the first non-empty element, then raises if `label_encode` has
any key. (The Python messages interpolate the offending list; the error
payload here records which argument tripped the check.) -/
def autoConflictCheck (OHE standard_scale robust_scale numerical_impute
    categorical_impute : List String)
    (label_encode : List (String × List Value)) : Except Err Unit :=
  if OHE.length > 0 then .error (.configConflict "OHE")
  else if standard_scale.length > 0 then .error (.configConflict "standard_scale")
  else if robust_scale.length > 0 then .error (.configConflict "robust_scale")
  else if numerical_impute.length > 0 then .error (.configConflict "numerical_impute")
  else if categorical_impute.length > 0 then .error (.configConflict "categorical_impute")
  else if label_encode.length > 0 then .error (.configConflict "label_encode")
  else .ok ()

def selectDtypes (T : Table) (incl : List Dtype) : List String :=
  (T.cols.filter (fun c => incl.contains c.dtype)).map (·.name)

/-- The transformer the source constructs: in auto mode `standard_scale`
and `OHE` are reassigned from `select_dtypes` and the encoder gets
`drop='first'`; in manual mode the caller's lists are used verbatim and
there is no drop. -/
def buildTransformer (auto : Bool) (X_train : Table)
    (OHE standard_scale robust_scale numerical_impute categorical_impute :
      List String) : Transformer :=
  let OHE2 := if auto then selectDtypes X_train [.object, .bool, .category] else OHE
  let standard_scale2 :=
    if auto then selectDtypes X_train [.float64, .int64] else standard_scale
  { catImpute := categorical_impute
    numImpute := numerical_impute
    oneHot := OHE2
    standardScale := standard_scale2
    robustScale := robust_scale
    dropFirst := auto }

/-- Everything between the argument type check and the label-encoding
loop: auto-mode validation, transformer construction, fit on the train
table, column-name reconciliation, and the two `pd.DataFrame(...)`
constructions. -/
def transformPhase (X_train : Table) (X_test : Option Table) (auto : Bool)
    (OHE standard_scale robust_scale numerical_impute categorical_impute :
      List String)
    (label_encode : List (String × List Value)) :
    Except Err (Table × Option Table) :=
  bindE (if auto then
          autoConflictCheck OHE standard_scale robust_scale numerical_impute
            categorical_impute label_encode
        else .ok ()) fun _ =>
  let t := buildTransformer auto X_train OHE standard_scale robust_scale
    numerical_impute categorical_impute
  let column_names0 := X_train.names
  bindE (t.fit X_train) fun fitted =>
  let ohe_columns := if t.oneHot.length > 0 then fitted.getFeatureNames else []
  let column_names1 := column_names0.filter (fun x => !t.oneHot.contains x)
  let column_names := ohe_columns ++ column_names1
  bindE (fitted.transform X_train) fun data =>
  bindE (mkDataFrame data column_names) fun Xtr2 =>
  match X_test with
  | none => .ok (Xtr2, none)
  | some Te =>
    bindE (fitted.transform Te) fun tdata =>
    bindE (mkDataFrame tdata column_names) fun Te2 =>
    .ok (Xtr2, some Te2)

/-- The body of `preproc` after the dynamic argument type check (the
`X_train.copy()` / `X_test.copy()` lines create fresh objects with the
same values; in this value-level embedding they are identities — the
object-identity content of the copies is modelled by `preprocH` below). -/
def preproc (X_train : Table) (X_test : Option Table) (auto : Bool)
    (OHE standard_scale robust_scale numerical_impute categorical_impute :
      List String)
    (label_encode : List (String × List Value)) :
    Except Err (Table × Option Table) :=
  bindE (transformPhase X_train X_test auto OHE standard_scale robust_scale
      numerical_impute categorical_impute label_encode) fun p =>
    labelEncodePass label_encode p.1 p.2

/-! ## The dynamic argument type check (`args = locals().copy()`) -/

/-- The `arg_types` table of the source, paired with the argument names in
the iteration order of `locals()` (parameter declaration order in
CPython). -/
def argTypes : List (String × List PyType) :=
  [("X_train", [.dataframe]),
   ("X_test", [.nonetype, .dataframe]),
   ("auto", [.bool]),
   ("OHE", [.list, .ndarray]),
   ("standard_scale", [.list, .ndarray]),
   ("robust_scale", [.list, .ndarray]),
   ("numerical_impute", [.list, .ndarray]),
   ("categorical_impute", [.list, .ndarray]),
   ("label_encode", [.dict])]

/-- The `for arg_key in args.keys()` loop: raise on the first argument
whose runtime type is not in its permitted list. -/
def checkArgs : List ((String × List PyType) × PyVal) → Except Err Unit
  | [] => .ok ()
  | ((name, permitted), v) :: rest =>
    if pyTypeOf v ∈ permitted then checkArgs rest
    else .error (.typeMismatch name permitted (pyTypeOf v))

def asTable (v : PyVal) : Except Err Table :=
  match v with
  | .dataframe t => .ok t
  | _ => .error (.typeMismatch "X_train" [.dataframe] (pyTypeOf v))

def asOptTable (v : PyVal) : Except Err (Option Table) :=
  match v with
  | .dataframe t => .ok (some t)
  | .pynone => .ok none
  | _ => .error (.typeMismatch "X_test" [.nonetype, .dataframe] (pyTypeOf v))

def asBool (v : PyVal) : Except Err Bool :=
  match v with
  | .pybool b => .ok b
  | _ => .error (.typeMismatch "auto" [.bool] (pyTypeOf v))

def asCols (arg : String) (v : PyVal) : Except Err (List String) :=
  match v with
  | .pylist xs => .ok xs
  | .ndarray xs => .ok xs
  | _ => .error (.typeMismatch arg [.list, .ndarray] (pyTypeOf v))

def asMap (v : PyVal) : Except Err (List (String × List Value)) :=
  match v with
  | .pydict m => .ok m
  | _ => .error (.typeMismatch "label_encode" [.dict] (pyTypeOf v))

/-- `preproc` as called from Python: dynamic values in, type check first,
then the typed body. (After a successful `checkArgs` every extraction
succeeds.) -/
def preprocPy (X_train X_test auto OHE standard_scale robust_scale
    numerical_impute categorical_impute label_encode : PyVal) :
    Except Err (Table × Option Table) :=
  bindE (checkArgs (argTypes.zip
      [X_train, X_test, auto, OHE, standard_scale, robust_scale,
       numerical_impute, categorical_impute, label_encode])) fun _ =>
  bindE (asTable X_train) fun tr =>
  bindE (asOptTable X_test) fun te =>
  bindE (asBool auto) fun au =>
  bindE (asCols "OHE" OHE) fun o =>
  bindE (asCols "standard_scale" standard_scale) fun s =>
  bindE (asCols "robust_scale" robust_scale) fun r =>
  bindE (asCols "numerical_impute" numerical_impute) fun n =>
  bindE (asCols "categorical_impute" categorical_impute) fun c =>
  bindE (asMap label_encode) fun m =>
  preproc tr te au o s r n c m

/-! ## Object-identity model (for the frame-effect of `.copy()`)

The value-level `preproc` above cannot express that the CALLER's tables
are never mutated, so the same control flow is replayed here over an
explicit heap of table objects: `X_train.copy()` allocates a fresh cell,
`pd.DataFrame(...)` allocates a fresh cell, and the label-encoding loop's
`X_train[column] = ...` assignments are in-place stores to the cell the
local variable is bound to at that point. All pure computation is shared
with the definitions above. -/

abbrev Heap := List Table

/-- The `for column in le_columns` loop over the heap: in-place updates of
the two result objects (`rTr`, `rTe`), in source order — the train column
is reassigned before the test column of the same key is read. -/
def labelEncodePassH : List (String × List Value) → Heap → Nat → Option Nat →
    Heap × Except Err Unit
  | [], h, _, _ => (h, .ok ())
  | (col, cats) :: rest, h, rTr, rTe =>
    let classes := leFit cats
    match List.get? h rTr with
    | none => (h, .error (.keyError col))
    | some T =>
      match T.getColVals col with
      | .error e => (h, .error e)
      | .ok trVals =>
        match leTransform classes trVals with
        | .error e => (h, .error e)
        | .ok trNew =>
          let h2 := h.set rTr (T.setCol col trNew)
          match rTe with
          | none => labelEncodePassH rest h2 rTr none
          | some rt =>
            match List.get? h2 rt with
            | none => (h2, .error (.keyError col))
            | some Tt =>
              match Tt.getColVals col with
              | .error e => (h2, .error e)
              | .ok teVals =>
                match leTransform classes teVals with
                | .error e => (h2, .error e)
                | .ok teNew =>
                  labelEncodePassH rest (h2.set rt (Tt.setCol col teNew)) rTr (some rt)

/-- `preproc` over the heap. The caller passes references to its table
objects; the function reads them, allocates copies (`.copy()`), runs the
pure transform phase on the copies, allocates the two result DataFrames,
and runs the label-encoding loop in place on those. It returns the final
heap together with references to the results (or the error raised). -/
def preprocH (h : Heap) (rTrain : Nat) (rTest : Option Nat) (auto : Bool)
    (OHE standard_scale robust_scale numerical_impute categorical_impute :
      List String)
    (label_encode : List (String × List Value)) :
    Heap × Except Err (Nat × Option Nat) :=
  match List.get? h rTrain with
  | none => (h, .error (.keyError "X_train"))
  | some Xtr0 =>
    -- X_train = X_train.copy()
    let h1 : Heap := h ++ [Xtr0]
    match rTest with
    | none =>
      match transformPhase Xtr0 none auto OHE standard_scale robust_scale
          numerical_impute categorical_impute label_encode with
      | .error e => (h1, .error e)
      | .ok (t1, _) =>
        let rTr2 := List.length h1
        let h2 : Heap := h1 ++ [t1]
        match labelEncodePassH label_encode h2 rTr2 none with
        | (h3, .ok _) => (h3, .ok (rTr2, none))
        | (h3, .error e) => (h3, .error e)
    | some rt =>
      match List.get? h rt with
      | none => (h1, .error (.keyError "X_test"))
      | some Xte0 =>
        -- X_test = X_test.copy()
        let h2 : Heap := h1 ++ [Xte0]
        match transformPhase Xtr0 (some Xte0) auto OHE standard_scale
            robust_scale numerical_impute categorical_impute label_encode with
        | .error e => (h2, .error e)
        | .ok (t1, ote) =>
          let rTr2 := List.length h2
          let h3 : Heap := h2 ++ [t1]
          let hr : Heap × Option Nat :=
            match ote with
            | none => (h3, none)
            | some t2 => (h3 ++ [t2], some (List.length h3))
          match labelEncodePassH label_encode hr.1 rTr2 hr.2 with
          | (h5, .ok _) => (h5, .ok (rTr2, hr.2))
          | (h5, .error e) => (h5, .error e)

/-! # Theorems for the claims -/

instance {ε α : Type} [DecidableEq ε] [DecidableEq α] : DecidableEq (Except ε α) :=
  fun x y =>
    match x, y with
    | .ok a, .ok b =>
      if h : a = b then isTrue (by rw [h]) else isFalse (fun hh => by cases hh; exact h rfl)
    | .error a, .error b =>
      if h : a = b then isTrue (by rw [h]) else isFalse (fun hh => by cases hh; exact h rfl)
    | .ok _, .error _ => isFalse (fun hh => by cases hh)
    | .error _, .ok _ => isFalse (fun hh => by cases hh)

/-- C1: the claim says the integer code of each category value is its
position in the caller-provided ordered list, so with
`label_encoding_map = {"grade": ["F","D","C","B","A"]}` the value "A" must
encode to 4 and "F" to 0. The code evaluated at that input instead encodes
"A" to 0: `LabelEncoder.fit` sorts the unique class values
(`numpy.unique`), discarding the caller's order — contradicting the
function's own docstring ("the order of the values will determine the
encoding (1st element will be 0 etc.)"). -/
theorem C1_label_codes_are_sorted_positions_not_list_positions :
    preproc ⟨[⟨"grade", Dtype.object, [Value.str "A", Value.str "F"]⟩]⟩ none
        false [] [] [] [] []
        [("grade", [Value.str "F", Value.str "D", Value.str "C",
          Value.str "B", Value.str "A"])]
      = .ok (⟨[⟨"grade", Dtype.int64, [Value.num 0, Value.num 4]⟩]⟩, none) := by
  decide

/-- C2: the claim says every imputed, scaled, and passthrough column keeps
its original column slot with only its values changed. Evaluating the code
on columns `a = ["x"]`, `b = ["y"]` with `categorical_impute = ["b"]`
refutes this: the ColumnTransformer emits its output columns in
transformer-group order (imputed `b` first, passthrough `a` second), while
the code assigns the names in one-hot-then-original order (`a`, `b`), so
the returned column `a` holds `b`'s values and vice versa. -/
theorem C2_columns_are_mislabelled_in_manual_mode :
    preproc ⟨[⟨"a", Dtype.object, [Value.str "x"]⟩,
              ⟨"b", Dtype.object, [Value.str "y"]⟩]⟩ none
        false [] [] [] [] ["b"] []
      = .ok (⟨[⟨"a", Dtype.object, [Value.str "y"]⟩,
               ⟨"b", Dtype.object, [Value.str "x"]⟩]⟩, none) := by
  decide

/-- If any of the five manual lists, or the label-encode mapping, is
non-empty, the auto-mode check raises (on the first offender in source
order). -/
theorem autoConflictCheck_errors (o s r n c : List String)
    (m : List (String × List Value))
    (h : o ≠ [] ∨ s ≠ [] ∨ r ≠ [] ∨ n ≠ [] ∨ c ≠ [] ∨ m ≠ []) :
    ∃ a, autoConflictCheck o s r n c m = .error (.configConflict a) := by
  cases o with
  | cons x xs => exact ⟨"OHE", by simp [autoConflictCheck]⟩
  | nil =>
    cases s with
    | cons x xs => exact ⟨"standard_scale", by simp [autoConflictCheck]⟩
    | nil =>
      cases r with
      | cons x xs => exact ⟨"robust_scale", by simp [autoConflictCheck]⟩
      | nil =>
        cases n with
        | cons x xs => exact ⟨"numerical_impute", by simp [autoConflictCheck]⟩
        | nil =>
          cases c with
          | cons x xs => exact ⟨"categorical_impute", by simp [autoConflictCheck]⟩
          | nil =>
            cases m with
            | cons x xs => exact ⟨"label_encode", by simp [autoConflictCheck]⟩
            | nil => simp at h

/-- C3: any call with `auto = true` and a non-empty manual column list or a
non-empty label-encoding mapping fails with a ConfigConflict error,
whatever the lists contain; the error is returned before any fitting or
transforming happens, so no transformation output is produced. -/
theorem C3_auto_mode_rejects_manual_configuration (X : Table)
    (Xte : Option Table) (o s r n c : List String)
    (m : List (String × List Value))
    (h : o ≠ [] ∨ s ≠ [] ∨ r ≠ [] ∨ n ≠ [] ∨ c ≠ [] ∨ m ≠ []) :
    ∃ a, preproc X Xte true o s r n c m = .error (.configConflict a) := by
  obtain ⟨a, ha⟩ := autoConflictCheck_errors o s r n c m h
  exact ⟨a, by simp [preproc, transformPhase, ha, bindE]⟩

/-- Witness for C3 at a concrete input. -/
theorem C3_witness :
    (["city"] ≠ ([] : List String) ∨ ([] : List String) ≠ [] ∨
      ([] : List String) ≠ [] ∨ ([] : List String) ≠ [] ∨
      ([] : List String) ≠ [] ∨ ([] : List (String × List Value)) ≠ []) ∧
    ∃ a, preproc ⟨[⟨"city", Dtype.object, [Value.str "NY"]⟩]⟩ none true
        ["city"] [] [] [] [] [] = .error (.configConflict a) :=
  ⟨Or.inl (by decide),
    C3_auto_mode_rejects_manual_configuration _ none ["city"] [] [] [] [] []
      (Or.inl (by decide))⟩

/-- If some argument in the list violates its permitted-type set, the
check loop fails with a TypeMismatch naming the FIRST violating argument,
its permitted types and its actual type. -/
theorem checkArgs_first_violation (l : List ((String × List PyType) × PyVal))
    (h : ∃ p ∈ l, pyTypeOf p.2 ∉ p.1.2) :
    ∃ i name permitted v,
      l.get? i = some ((name, permitted), v) ∧
      pyTypeOf v ∉ permitted ∧
      (∀ j p, j < i → l.get? j = some p → pyTypeOf p.2 ∈ p.1.2) ∧
      checkArgs l = .error (.typeMismatch name permitted (pyTypeOf v)) := by
  induction l with
  | nil => simp at h
  | cons a rest ih =>
    obtain ⟨⟨name0, perm0⟩, v0⟩ := a
    by_cases ha : pyTypeOf v0 ∈ perm0
    · have h' : ∃ p ∈ rest, pyTypeOf p.2 ∉ p.1.2 := by
        rcases h with ⟨p, hp, hnp⟩
        rcases List.mem_cons.mp hp with rfl | hp'
        · exact absurd ha hnp
        · exact ⟨p, hp', hnp⟩
      obtain ⟨i, name, permitted, v, hget, hnot, hprev, hrun⟩ := ih h'
      refine ⟨i + 1, name, permitted, v, by simpa using hget, hnot, ?_, ?_⟩
      · intro j p hj hgj
        cases j with
        | zero =>
          simp at hgj
          rw [← hgj]
          exact ha
        | succ j' =>
          exact hprev j' p (Nat.lt_of_succ_lt_succ hj) (by simpa using hgj)
      · simpa [checkArgs, ha] using hrun
    · exact ⟨0, name0, perm0, v0, rfl, ha, fun j p hj => absurd hj (Nat.not_lt_zero j),
        by simp [checkArgs, ha]⟩

/-- C5: for every call where some argument's runtime value is outside its
permitted type set, `preproc` fails with a TypeMismatch error naming the
first violating argument (in the fixed iteration order of the argument
dictionary), the permitted types and the actual type — before any
transformation work begins (the typed body is never entered). -/
theorem C5_first_type_violation_raises
    (a1 a2 a3 a4 a5 a6 a7 a8 a9 : PyVal)
    (h : ∃ p ∈ argTypes.zip [a1, a2, a3, a4, a5, a6, a7, a8, a9],
      pyTypeOf p.2 ∉ p.1.2) :
    ∃ i name permitted v,
      (argTypes.zip [a1, a2, a3, a4, a5, a6, a7, a8, a9]).get? i
        = some ((name, permitted), v) ∧
      pyTypeOf v ∉ permitted ∧
      (∀ j p, j < i →
        (argTypes.zip [a1, a2, a3, a4, a5, a6, a7, a8, a9]).get? j = some p →
        pyTypeOf p.2 ∈ p.1.2) ∧
      preprocPy a1 a2 a3 a4 a5 a6 a7 a8 a9
        = .error (.typeMismatch name permitted (pyTypeOf v)) := by
  obtain ⟨i, name, permitted, v, hget, hnot, hprev, hrun⟩ :=
    checkArgs_first_violation _ h
  exact ⟨i, name, permitted, v, hget, hnot, hprev, by simp [preprocPy, hrun, bindE]⟩

/-- Witness for C5: a non-DataFrame `X_train` is reported as the first
violation. -/
theorem C5_witness :
    ∃ i name permitted v,
      (argTypes.zip [PyVal.pystr "age", PyVal.pynone, PyVal.pybool false,
        PyVal.pylist [], PyVal.pylist ["age"], PyVal.pylist [],
        PyVal.pylist [], PyVal.pylist [], PyVal.pydict []]).get? i
        = some ((name, permitted), v) ∧
      pyTypeOf v ∉ permitted ∧
      (∀ j p, j < i →
        (argTypes.zip [PyVal.pystr "age", PyVal.pynone, PyVal.pybool false,
          PyVal.pylist [], PyVal.pylist ["age"], PyVal.pylist [],
          PyVal.pylist [], PyVal.pylist [], PyVal.pydict []]).get? j = some p →
        pyTypeOf p.2 ∈ p.1.2) ∧
      preprocPy (PyVal.pystr "age") PyVal.pynone (PyVal.pybool false)
        (PyVal.pylist []) (PyVal.pylist ["age"]) (PyVal.pylist [])
        (PyVal.pylist []) (PyVal.pylist []) (PyVal.pydict [])
        = .error (.typeMismatch name permitted (pyTypeOf v)) :=
  C5_first_type_violation_raises _ _ _ _ _ _ _ _ _ (by decide)

/-- C10: each of the five column-list arguments is accepted only at
runtime type `list` or `numpy.ndarray`; ANY other runtime type — a tuple
in particular, though it is a perfectly good sequence of column names —
is rejected with the TypeMismatch error for that argument. -/
theorem C10_column_lists_reject_other_sequence_types (v : PyVal)
    (h : pyTypeOf v ∉ [PyType.list, PyType.ndarray]) :
    (preprocPy (.dataframe ⟨[]⟩) .pynone (.pybool false) v (.pylist [])
        (.pylist []) (.pylist []) (.pylist []) (.pydict [])
      = .error (.typeMismatch "OHE" [.list, .ndarray] (pyTypeOf v))) ∧
    (preprocPy (.dataframe ⟨[]⟩) .pynone (.pybool false) (.pylist []) v
        (.pylist []) (.pylist []) (.pylist []) (.pydict [])
      = .error (.typeMismatch "standard_scale" [.list, .ndarray] (pyTypeOf v))) ∧
    (preprocPy (.dataframe ⟨[]⟩) .pynone (.pybool false) (.pylist [])
        (.pylist []) v (.pylist []) (.pylist []) (.pydict [])
      = .error (.typeMismatch "robust_scale" [.list, .ndarray] (pyTypeOf v))) ∧
    (preprocPy (.dataframe ⟨[]⟩) .pynone (.pybool false) (.pylist [])
        (.pylist []) (.pylist []) v (.pylist []) (.pydict [])
      = .error (.typeMismatch "numerical_impute" [.list, .ndarray] (pyTypeOf v))) ∧
    (preprocPy (.dataframe ⟨[]⟩) .pynone (.pybool false) (.pylist [])
        (.pylist []) (.pylist []) (.pylist []) v (.pydict [])
      = .error (.typeMismatch "categorical_impute" [.list, .ndarray] (pyTypeOf v))) := by
  have hne : ¬(pyTypeOf v = PyType.list ∨ pyTypeOf v = PyType.ndarray) := by
    simpa using h
  refine ⟨?_, ?_, ?_, ?_, ?_⟩ <;> cases v <;>
    first
      | exact absurd (Or.inl rfl) hne
      | exact absurd (Or.inr rfl) hne
      | rfl

/-- Witness for C10: a tuple of column names is rejected. -/
theorem C10_witness :
    preprocPy (.dataframe ⟨[]⟩) .pynone (.pybool false) (.pytuple ["a"])
        (.pylist []) (.pylist []) (.pylist []) (.pylist []) (.pydict [])
      = .error (.typeMismatch "OHE" [.list, .ndarray] PyType.tuple) :=
  (C10_column_lists_reject_other_sequence_types (.pytuple ["a"]) (by decide)).1

/-- For a table with distinct column names, a column's name appears in a
`select_dtypes` result exactly when its dtype is in the include list. -/
theorem mem_selectDtypes (X : Table) (incl : List Dtype) (col : Column)
    (hcol : col ∈ X.cols) (hnodup : X.names.Nodup) :
    col.name ∈ selectDtypes X incl ↔ col.dtype ∈ incl := by
  unfold selectDtypes
  constructor
  · intro hmem
    obtain ⟨c2, hc2, hname⟩ := List.mem_map.mp hmem
    obtain ⟨hc2mem, hc2d⟩ := List.mem_filter.mp hc2
    have : c2 = col :=
      List.inj_on_of_nodup_map hnodup hc2mem hcol hname
    subst this
    simpa using hc2d
  · intro hd
    exact List.mem_map.mpr ⟨col,
      List.mem_filter.mpr ⟨hcol, by simpa using hd⟩, rfl⟩

/-- C4: in automatic mode the plan partitions the train table's columns by
dtype — a column is a standard-scale target exactly when its dtype is
numeric (`float64`/`int64`) and a one-hot target exactly when its dtype is
categorical-including-boolean (`object`/`bool`/`category`); the two
imputation lists stay exactly the caller's (hence empty in any auto call
that passes the conflict check) and the encoder drops the first category;
in manual mode no first-category drop is performed. -/
theorem C4_auto_partitions_by_dtype_and_drops_first (X : Table)
    (o s r n c : List String) (hnodup : X.names.Nodup) :
    (∀ col ∈ X.cols,
      (col.name ∈ (buildTransformer true X o s r n c).standardScale ↔
        col.dtype ∈ [Dtype.float64, Dtype.int64]) ∧
      (col.name ∈ (buildTransformer true X o s r n c).oneHot ↔
        col.dtype ∈ [Dtype.object, Dtype.bool, Dtype.category])) ∧
    (buildTransformer true X o s r n c).numImpute = n ∧
    (buildTransformer true X o s r n c).catImpute = c ∧
    (buildTransformer true X o s r n c).dropFirst = true ∧
    (buildTransformer false X o s r n c).dropFirst = false ∧
    (buildTransformer false X o s r n c).oneHot = o ∧
    (buildTransformer false X o s r n c).standardScale = s := by
  refine ⟨fun col hcol => ⟨?_, ?_⟩, rfl, rfl, rfl, rfl, rfl, rfl⟩
  · simpa [buildTransformer] using
      mem_selectDtypes X [Dtype.float64, Dtype.int64] col hcol hnodup
  · simpa [buildTransformer] using
      mem_selectDtypes X [Dtype.object, Dtype.bool, Dtype.category] col hcol hnodup

/-- Witness for C4 at a concrete two-column table. -/
theorem C4_witness :
    (⟨[⟨"age", Dtype.float64, []⟩, ⟨"city", Dtype.object, []⟩]⟩ :
        Table).names.Nodup ∧
    ((buildTransformer true
        ⟨[⟨"age", Dtype.float64, []⟩, ⟨"city", Dtype.object, []⟩]⟩
        [] [] [] [] []).standardScale = ["age"] ∧
      (buildTransformer true
        ⟨[⟨"age", Dtype.float64, []⟩, ⟨"city", Dtype.object, []⟩]⟩
        [] [] [] [] []).oneHot = ["city"]) ∧
    ("age" ∈ (buildTransformer true
        ⟨[⟨"age", Dtype.float64, []⟩, ⟨"city", Dtype.object, []⟩]⟩
        [] [] [] [] []).standardScale ↔
      Dtype.float64 ∈ [Dtype.float64, Dtype.int64]) := by
  refine ⟨by decide, ⟨by decide, by decide⟩, ?_⟩
  have h := (C4_auto_partitions_by_dtype_and_drops_first
    ⟨[⟨"age", Dtype.float64, []⟩, ⟨"city", Dtype.object, []⟩]⟩
    [] [] [] [] [] (by decide)).1 ⟨"age", Dtype.float64, []⟩ (by decide)
  exact h.1

/-! ## The all-defaults call is the identity transformation (C9) -/

theorem map_getD_range (l : List Column) :
    (List.range l.length).map
        (fun i => (l.getD i ⟨"", Dtype.object, []⟩).values)
      = l.map (·.values) := by
  induction l with
  | nil => rfl
  | cons a l ih =>
    rw [List.length_cons, List.range_succ_eq_map, List.map_cons, List.map_map]
    exact congrArg (List.cons a.values) ih

theorem mapExcept_read_range (cols : List Column) :
    mapExcept
        (fun i => match cols.get? i with
          | some col => Except.ok col.values
          | none => Except.error (Err.keyError "remainder"))
        (List.range cols.length)
      = .ok (cols.map (·.values)) := by
  rw [mapExcept_ok_of_forall _
      (fun i => (cols.getD i ⟨"", Dtype.object, []⟩).values) _ ?_,
    map_getD_range]
  intro i hi
  have hlt : i < cols.length := List.mem_range.mp hi
  show (match cols.get? i with
    | some col => Except.ok col.values
    | none => Except.error (Err.keyError "remainder"))
      = Except.ok ((cols.getD i ⟨"", Dtype.object, []⟩).values)
  rw [List.get?_eq_getElem?, List.getElem?_eq_getElem hlt,
    List.getD_eq_getElem cols _ hlt]

theorem remainderIdxOf_nil (X : Table) :
    remainderIdxOf X [] = List.range X.cols.length := by
  simp [remainderIdxOf, List.enum_map_fst]

/-- Fitting the transformer of an all-defaults (manual, all-empty) call
learns nothing: all parameter lists are empty and every column is a
remainder column. -/
theorem fit_empty (X : Table) :
    Transformer.fit
        { catImpute := [], numImpute := [], oneHot := [],
          standardScale := [], robustScale := [], dropFirst := false } X =
      .ok { cfg := { catImpute := [], numImpute := [], oneHot := [],
                     standardScale := [], robustScale := [],
                     dropFirst := false },
            numImputeStats := [], oneHotCats := [], standardStats := [],
            robustStats := [], remainderIdx := List.range X.cols.length } := by
  simp [Transformer.fit, mapExcept, remainderIdxOf_nil, bindE]

/-- The all-defaults fitted transformer passes every column of a table of
the fitted width through unchanged. -/
theorem fitted_empty_transform (X T : Table)
    (hlen : X.cols.length = T.cols.length) :
    Fitted.transform
        { cfg := { catImpute := [], numImpute := [], oneHot := [],
                   standardScale := [], robustScale := [],
                   dropFirst := false },
          numImputeStats := [], oneHotCats := [], standardStats := [],
          robustStats := [], remainderIdx := List.range X.cols.length } T
      = .ok T.valuesList := by
  have hrem := mapExcept_read_range T.cols
  simp only [Fitted.transform, mapExcept, hlen, hrem, Table.valuesList, bindE_ok, bindE]
  simp

theorem mkDataFrame_shape (N : List String) (D : List (List Value))
    (h : D.length = N.length) :
    ∃ B, mkDataFrame D N = .ok B ∧ B.names = N ∧ B.valuesList = D := by
  refine ⟨⟨(N.zip D).map (fun p => ⟨p.1, Dtype.object, p.2⟩)⟩, ?_, ?_, ?_⟩
  · simp [mkDataFrame, h]
  · show ((N.zip D).map (fun p => ⟨p.1, Dtype.object, p.2⟩)).map
        Column.name = N
    rw [List.map_map]
    exact List.map_fst_zip N D (le_of_eq h.symm)
  · show ((N.zip D).map (fun p => ⟨p.1, Dtype.object, p.2⟩)).map
        Column.values = D
    rw [List.map_map]
    exact List.map_snd_zip N D (le_of_eq h)

theorem names_length (T : Table) : T.names.length = T.cols.length := by
  simp [Table.names]

theorem valuesList_length (T : Table) : T.valuesList.length = T.cols.length := by
  simp [Table.valuesList]

/-- C9: a call with every argument left at its default (manual mode, all
five column lists empty, empty label-encode mapping) returns a train
table with the same column names, in the same order, holding the same
values as the input, and does the same to the test table when one is
supplied. -/
theorem C9_all_defaults_is_identity (X Y : Table) (hY : Y.names = X.names) :
    (∃ X1, preproc X none false [] [] [] [] [] [] = .ok (X1, none) ∧
      X1.names = X.names ∧ X1.valuesList = X.valuesList) ∧
    (∃ X2 Y2, preproc X (some Y) false [] [] [] [] [] [] = .ok (X2, some Y2) ∧
      X2.names = X.names ∧ X2.valuesList = X.valuesList ∧
      Y2.names = X.names ∧ Y2.valuesList = Y.valuesList) := by
  have hlenY : X.cols.length = Y.cols.length := by
    have := congrArg List.length hY.symm
    simpa [Table.names] using this
  obtain ⟨B1, hB1, hB1n, hB1v⟩ :=
    mkDataFrame_shape X.names X.valuesList
      (by rw [names_length, valuesList_length])
  obtain ⟨B2, hB2, hB2n, hB2v⟩ :=
    mkDataFrame_shape X.names Y.valuesList
      (by rw [names_length, valuesList_length, hlenY])
  constructor
  · refine ⟨B1, ?_, hB1n, hB1v⟩
    simp [preproc, transformPhase, fit_empty, fitted_empty_transform X X rfl,
      labelEncodePass, hB1, buildTransformer, bindE]
  · refine ⟨B1, B2, ?_, hB1n, hB1v, hB2n, hB2v⟩
    simp [preproc, transformPhase, fit_empty, fitted_empty_transform X X rfl,
      fitted_empty_transform X Y hlenY, labelEncodePass, hB1, hB2,
      buildTransformer, bindE]

/-- Witness for C9 at a concrete table. -/
theorem C9_witness :
    ((⟨[⟨"a", Dtype.object, [Value.str "x"]⟩]⟩ : Table).names =
      (⟨[⟨"a", Dtype.object, [Value.str "x"]⟩]⟩ : Table).names) ∧
    (∃ X1, preproc ⟨[⟨"a", Dtype.object, [Value.str "x"]⟩]⟩ none false
        [] [] [] [] [] [] = .ok (X1, none) ∧
      X1.names = (⟨[⟨"a", Dtype.object, [Value.str "x"]⟩]⟩ : Table).names ∧
      X1.valuesList =
        (⟨[⟨"a", Dtype.object, [Value.str "x"]⟩]⟩ : Table).valuesList) :=
  ⟨rfl, (C9_all_defaults_is_identity ⟨[⟨"a", Dtype.object, [Value.str "x"]⟩]⟩
    ⟨[⟨"a", Dtype.object, [Value.str "x"]⟩]⟩ rfl).1⟩

/-! ## Passing the train table again as the test table (C6) -/

/-- The label-encoding loop keeps equal train/test tables equal: each key
reads the same column, fits the same encoder, and writes the same codes to
both. -/
theorem labelEncodePass_self (m : List (String × List Value)) :
    ∀ (T a : Table) (b : Option Table),
      labelEncodePass m T (some T) = .ok (a, b) → b = some a := by
  induction m with
  | nil =>
    intro T a b h
    simp only [labelEncodePass] at h
    cases h
    rfl
  | cons p rest ih =>
    intro T a b h
    obtain ⟨col, cats⟩ := p
    simp only [labelEncodePass] at h
    cases hget : T.getColVals col with
    | error e => simp [hget, bindE] at h
    | ok trVals =>
      simp only [hget, bindE_ok] at h
      cases htr : leTransform (leFit cats) trVals with
      | error e => simp [htr, bindE] at h
      | ok trNew =>
        simp only [htr, bindE_ok] at h
        exact ih (T.setCol col trNew) a b h

/-- On success, the transform phase maps identical train and test tables
to identical outputs (the fitted parameters and the reconciled column
names are computed once, from the train table). -/
theorem transformPhase_self (X : Table) (auto : Bool) (o s r n c : List String)
    (m : List (String × List Value)) (t1 : Table) (t2 : Option Table)
    (h : transformPhase X (some X) auto o s r n c m = .ok (t1, t2)) :
    t2 = some t1 := by
  simp only [transformPhase] at h
  obtain ⟨u, hchk, h⟩ := bindE_eq_ok h
  obtain ⟨fitted, hfit, h⟩ := bindE_eq_ok h
  obtain ⟨data, htr, h⟩ := bindE_eq_ok h
  obtain ⟨Xtr2, hmk, h⟩ := bindE_eq_ok h
  obtain ⟨tdata, htr2, h⟩ := bindE_eq_ok h
  obtain ⟨Te2, hmk2, h⟩ := bindE_eq_ok h
  rw [htr] at htr2
  cases htr2
  rw [hmk] at hmk2
  cases hmk2
  cases h
  rfl

/-- C6: whenever a call that passes the training table again as the test
table succeeds, the two returned tables are identical — the test table is
transformed with exactly the parameters fitted on the train table and gets
the same column names, so equal inputs give equal outputs. -/
theorem C6_train_as_test_gives_identical_outputs (X : Table) (auto : Bool)
    (o s r n c : List String) (m : List (String × List Value))
    (t1 : Table) (t2 : Option Table)
    (h : preproc X (some X) auto o s r n c m = .ok (t1, t2)) :
    t2 = some t1 := by
  simp only [preproc] at h
  cases htp : transformPhase X (some X) auto o s r n c m with
  | error e => rw [htp] at h; cases h
  | ok p =>
    obtain ⟨u1, u2⟩ := p
    have hu : u2 = some u1 := transformPhase_self X auto o s r n c m u1 u2 htp
    rw [htp] at h
    subst hu
    exact labelEncodePass_self m u1 t1 t2 h

/-- Witness for C6 at a concrete successful call. -/
theorem C6_witness :
    (preproc ⟨[⟨"a", Dtype.object, [Value.str "x"]⟩]⟩
        (some ⟨[⟨"a", Dtype.object, [Value.str "x"]⟩]⟩) false [] [] [] [] [] []
      = .ok (⟨[⟨"a", Dtype.object, [Value.str "x"]⟩]⟩,
             some ⟨[⟨"a", Dtype.object, [Value.str "x"]⟩]⟩)) ∧
    some (⟨[⟨"a", Dtype.object, [Value.str "x"]⟩]⟩ : Table)
      = some ⟨[⟨"a", Dtype.object, [Value.str "x"]⟩]⟩ :=
  ⟨by decide,
    C6_train_as_test_gives_identical_outputs
      ⟨[⟨"a", Dtype.object, [Value.str "x"]⟩]⟩ false [] [] [] [] [] []
      ⟨[⟨"a", Dtype.object, [Value.str "x"]⟩]⟩
      (some ⟨[⟨"a", Dtype.object, [Value.str "x"]⟩]⟩) (by decide)⟩

/-! ## The caller's tables are never mutated (C8) -/

theorem take_set_of_le (l : List α) (i : Nat) (x : α) (n : Nat) (h : n ≤ i) :
    (l.set i x).take n = l.take n := by
  induction l generalizing i n with
  | nil => rfl
  | cons a l ih =>
    cases i with
    | zero =>
      cases Nat.le_zero.mp h
      rfl
    | succ i =>
      cases n with
      | zero => rfl
      | succ n =>
        simp only [List.set_cons_succ, List.take_succ_cons]
        rw [ih i n (Nat.le_of_succ_le_succ h)]

theorem take_heap_append (hp : Heap) (l : List Table) :
    (hp ++ l).take hp.length = hp := by
  rw [List.take_append_of_le_length (Nat.le_refl hp.length), List.take_length]

/-- The in-place label-encoding loop writes only to the two result
objects; every cell below `n` stays untouched as long as both result
references are at or above `n`. -/
theorem labelEncodePassH_take (m : List (String × List Value)) :
    ∀ (hp : Heap) (rTr : Nat) (rTe : Option Nat) (n : Nat), n ≤ rTr →
      (∀ r, rTe = some r → n ≤ r) →
      ((labelEncodePassH m hp rTr rTe).1).take n = hp.take n := by
  induction m with
  | nil => intro hp rTr rTe n _ _; rfl
  | cons p rest ih =>
    intro hp rTr rTe n hTr hTe
    obtain ⟨col, cats⟩ := p
    simp only [labelEncodePassH]
    cases hg : List.get? hp rTr with
    | none => rfl
    | some T =>
      cases hgc : T.getColVals col with
      | error e => simp [hgc]
      | ok trVals =>
        cases htr : leTransform (leFit cats) trVals with
        | error e => simp [hgc, htr]
        | ok trNew =>
          simp only [hgc, htr]
          cases rTe with
          | none =>
            rw [ih (hp.set rTr (T.setCol col trNew)) rTr none n hTr
              (fun r hr => by cases hr)]
            exact take_set_of_le hp rTr (T.setCol col trNew) n hTr
          | some rt =>
            have hTe' : n ≤ rt := hTe rt rfl
            cases hg2 : List.get? (hp.set rTr (T.setCol col trNew)) rt with
            | none =>
              simp only [hg2]
              exact take_set_of_le hp rTr (T.setCol col trNew) n hTr
            | some Tt =>
              simp only [hg2]
              cases hgc2 : Tt.getColVals col with
              | error e =>
                simp only [hgc2]
                exact take_set_of_le hp rTr (T.setCol col trNew) n hTr
              | ok teVals =>
                simp only [hgc2]
                cases hte : leTransform (leFit cats) teVals with
                | error e =>
                  simp only [hte]
                  exact take_set_of_le hp rTr (T.setCol col trNew) n hTr
                | ok teNew =>
                  simp only [hte]
                  rw [ih ((hp.set rTr (T.setCol col trNew)).set rt
                      (Tt.setCol col teNew)) rTr (some rt) n hTr
                    (fun r hr => by cases hr; exact hTe'),
                    take_set_of_le _ rt _ n hTe',
                    take_set_of_le hp rTr _ n hTr]

/-- C8: the caller's table objects are never modified. `preproc` copies
both input tables on entry and only ever writes to freshly allocated
objects, so whatever the call does — succeed or fail — every heap cell
that existed before the call still holds exactly its pre-call table. -/
theorem C8_inputs_never_mutated (hp : Heap) (rTrain : Nat)
    (rTest : Option Nat) (auto : Bool) (o s r n c : List String)
    (m : List (String × List Value)) :
    ((preprocH hp rTrain rTest auto o s r n c m).1).take hp.length = hp := by
  simp only [preprocH]
  cases hg : List.get? hp rTrain with
  | none => exact List.take_length hp
  | some Xtr0 =>
    cases rTest with
    | none =>
      dsimp only
      cases htp : transformPhase Xtr0 none auto o s r n c m with
      | error e =>
        simp only [htp]
        exact take_heap_append hp [Xtr0]
      | ok p =>
        obtain ⟨t1, t2⟩ := p
        simp only [htp]
        have hfr := labelEncodePassH_take m ((hp ++ [Xtr0]) ++ [t1])
          (List.length (hp ++ [Xtr0])) none hp.length
          (by simp only [List.length_append]; omega)
          (fun rr hr => by cases hr)
        cases hle : labelEncodePassH m ((hp ++ [Xtr0]) ++ [t1])
            (List.length (hp ++ [Xtr0])) none with
        | mk h3 res =>
          rw [hle] at hfr
          try simp only [hle]
          have happ : (((hp ++ [Xtr0]) ++ [t1]) : Heap).take hp.length = hp := by
            simpa only [List.append_assoc] using
              take_heap_append hp ([Xtr0] ++ [t1])
          cases res with
          | ok u => exact hfr.trans happ
          | error e => exact hfr.trans happ
    | some rt =>
      dsimp only
      cases hg2 : List.get? hp rt with
      | none =>
        try simp only [hg2]
        exact take_heap_append hp [Xtr0]
      | some Xte0 =>
        try simp only [hg2]
        cases htp : transformPhase Xtr0 (some Xte0) auto o s r n c m with
        | error e =>
          simp only [htp]
          simpa only [List.append_assoc] using
            take_heap_append hp ([Xtr0] ++ [Xte0])
        | ok p =>
          obtain ⟨t1, ote⟩ := p
          simp only [htp]
          cases ote with
          | none =>
            dsimp only
            have hfr := labelEncodePassH_take m
              (((hp ++ [Xtr0]) ++ [Xte0]) ++ [t1])
              (List.length ((hp ++ [Xtr0]) ++ [Xte0])) none hp.length
              (by simp only [List.length_append]; omega)
              (fun rr hr => by cases hr)
            cases hle : labelEncodePassH m (((hp ++ [Xtr0]) ++ [Xte0]) ++ [t1])
                (List.length ((hp ++ [Xtr0]) ++ [Xte0])) none with
            | mk h3 res =>
              rw [hle] at hfr
              try simp only [hle]
              have happ : ((((hp ++ [Xtr0]) ++ [Xte0]) ++ [t1]) : Heap).take
                  hp.length = hp := by
                simpa only [List.append_assoc] using
                  take_heap_append hp ([Xtr0] ++ ([Xte0] ++ [t1]))
              cases res with
              | ok u => exact hfr.trans happ
              | error e => exact hfr.trans happ
          | some t2 =>
            dsimp only
            have hfr := labelEncodePassH_take m
              ((((hp ++ [Xtr0]) ++ [Xte0]) ++ [t1]) ++ [t2])
              (List.length ((hp ++ [Xtr0]) ++ [Xte0]))
              (some (List.length (((hp ++ [Xtr0]) ++ [Xte0]) ++ [t1])))
              hp.length
              (by simp only [List.length_append]; omega)
              (fun rr hr => by
                cases hr
                simp only [List.length_append]
                omega)
            cases hle : labelEncodePassH m
                ((((hp ++ [Xtr0]) ++ [Xte0]) ++ [t1]) ++ [t2])
                (List.length ((hp ++ [Xtr0]) ++ [Xte0]))
                (some (List.length (((hp ++ [Xtr0]) ++ [Xte0]) ++ [t1]))) with
            | mk h3 res =>
              rw [hle] at hfr
              try simp only [hle]
              have happ : (((((hp ++ [Xtr0]) ++ [Xte0]) ++ [t1]) ++ [t2]) :
                  Heap).take hp.length = hp := by
                simpa only [List.append_assoc] using
                  take_heap_append hp ([Xtr0] ++ ([Xte0] ++ ([t1] ++ [t2])))
              cases res with
              | ok u => exact hfr.trans happ
              | error e => exact hfr.trans happ

/-! ## The unseen-label contract of the label-encoding pass (C7) -/

theorem find?_setColList_ne (cols : List Column) (c c2 : String)
    (vals : List Value) (h : c2 ≠ c) :
    (setColList cols c vals).find? (fun col => col.name == c2)
      = cols.find? (fun col => col.name == c2) := by
  induction cols with
  | nil =>
    have hcc : ((⟨c, Dtype.int64, vals⟩ : Column).name == c2) = false := by
      simp [Ne.symm h]
    simp [setColList, List.find?, hcc]
  | cons col rest ih =>
    by_cases hc : col.name = c
    · have hc2 : (col.name == c2) = false := by
        simp [hc, Ne.symm h]
      simp only [setColList]
      rw [if_pos hc]
      simp [List.find?, hc2]
    · by_cases h2 : col.name = c2
      · simp only [setColList]
        rw [if_neg hc]
        simp [List.find?, h2]
      · have h2' : (col.name == c2) = false := by simp [h2]
        simp only [setColList]
        rw [if_neg hc]
        simp [List.find?, h2', ih]

/-- Assigning one column leaves every differently-named column's values
unchanged. -/
theorem getColVals_setCol_ne (T : Table) (c c2 : String) (vals : List Value)
    (h : c2 ≠ c) :
    (T.setCol c vals).getColVals c2 = T.getColVals c2 := by
  simp [Table.getColVals, Table.setCol, find?_setColList_ne T.cols c c2 vals h]

/-- Membership in a fitted `LabelEncoder`'s classes is membership in the
caller's list: sorting and deduplicating change only order/multiplicity. -/
theorem mem_leFit (v : Value) (cats : List Value) : v ∈ leFit cats ↔ v ∈ cats :=
  mem_npUnique v cats

theorem leTransformOne_ok_of_mem (classes : List Value) (v : Value)
    (h : v ∈ classes) : ∃ w, leTransformOne classes v = .ok w := by
  cases hf : classes.findIdx? (· == v) with
  | none =>
    exfalso
    have := List.findIdx?_eq_none_iff.mp hf v h
    simp at this
  | some i => exact ⟨.num i, by simp [leTransformOne, hf]⟩

theorem leTransformOne_error_of_not_mem (classes : List Value) (v : Value)
    (h : v ∉ classes) : leTransformOne classes v = .error (.unseenLabel v) := by
  have hf : classes.findIdx? (· == v) = none := by
    apply List.findIdx?_eq_none_iff.mpr
    intro x hx
    have hxv : x ≠ v := fun hEq => absurd (hEq ▸ hx) h
    simpa using hxv
  simp [leTransformOne, hf]

/-- If every value is among the classes, `LabelEncoder.transform`
succeeds. -/
theorem leTransform_ok_of (classes vals : List Value)
    (h : ∀ v ∈ vals, v ∈ classes) :
    ∃ out, leTransform classes vals = .ok out := by
  induction vals with
  | nil => exact ⟨[], rfl⟩
  | cons v vs ih =>
    obtain ⟨w, hw⟩ := leTransformOne_ok_of_mem classes v (h v (List.mem_cons_self v vs))
    obtain ⟨out, hout⟩ := ih (fun x hx => h x (List.mem_cons_of_mem v hx))
    refine ⟨w :: out, ?_⟩
    simp only [leTransform] at hout ⊢
    simp [mapExcept, hw, hout, bindE]

/-- If some value is outside the classes, `LabelEncoder.transform` raises
an unseen-label error (at the first such value). -/
theorem leTransform_error_of (classes vals : List Value)
    (h : ∃ v ∈ vals, v ∉ classes) :
    ∃ v0, v0 ∈ vals ∧ v0 ∉ classes ∧
      leTransform classes vals = .error (.unseenLabel v0) := by
  induction vals with
  | nil => simp at h
  | cons v vs ih =>
    by_cases hv : v ∈ classes
    · have h' : ∃ x ∈ vs, x ∉ classes := by
        rcases h with ⟨x, hx, hnx⟩
        rcases List.mem_cons.mp hx with rfl | hx'
        · exact absurd hv hnx
        · exact ⟨x, hx', hnx⟩
      obtain ⟨v0, hv0, hn0, herr⟩ := ih h'
      obtain ⟨w, hw⟩ := leTransformOne_ok_of_mem classes v hv
      refine ⟨v0, List.mem_cons_of_mem v hv0, hn0, ?_⟩
      simp only [leTransform] at herr ⊢
      simp [mapExcept, hw, herr, bindE]
    · refine ⟨v, List.mem_cons_self v vs, hv, ?_⟩
      have hone := leTransformOne_error_of_not_mem classes v hv
      simp only [leTransform]
      simp [mapExcept, hone, bindE]

/-- The condition of the claim: some column named in the label-encoding
mapping contains — in the (transformed) train table, or in the test table
when present — a value absent from the caller-provided category list for
that column. -/
def hasUnseen (m : List (String × List Value)) (Xtr : Table)
    (Xte : Option Table) : Prop :=
  ∃ p ∈ m,
    (∃ vs, Xtr.getColVals p.1 = .ok vs ∧ ∃ v ∈ vs, v ∉ p.2) ∨
    (∃ T, Xte = some T ∧ ∃ vs, T.getColVals p.1 = .ok vs ∧ ∃ v ∈ vs, v ∉ p.2)

theorem hasUnseen_congr_none (m : List (String × List Value)) (X1 X2 : Table)
    (hX : ∀ p ∈ m, Table.getColVals X2 p.1 = Table.getColVals X1 p.1) :
    hasUnseen m X2 none ↔ hasUnseen m X1 none := by
  unfold hasUnseen
  constructor
  · rintro ⟨p, hp, ⟨vs, hvs, hun⟩ | ⟨T, hT, _⟩⟩
    · exact ⟨p, hp, Or.inl ⟨vs, (hX p hp) ▸ hvs, hun⟩⟩
    · cases hT
  · rintro ⟨p, hp, ⟨vs, hvs, hun⟩ | ⟨T, hT, _⟩⟩
    · exact ⟨p, hp, Or.inl ⟨vs, (hX p hp).trans hvs, hun⟩⟩
    · cases hT

theorem hasUnseen_congr_some (m : List (String × List Value))
    (X1 X2 T1 T2 : Table)
    (hX : ∀ p ∈ m, Table.getColVals X2 p.1 = Table.getColVals X1 p.1)
    (hT : ∀ p ∈ m, Table.getColVals T2 p.1 = Table.getColVals T1 p.1) :
    hasUnseen m X2 (some T2) ↔ hasUnseen m X1 (some T1) := by
  unfold hasUnseen
  constructor
  · rintro ⟨p, hp, ⟨vs, hvs, hun⟩ | ⟨T, hTeq, vs, hvs, hun⟩⟩
    · exact ⟨p, hp, Or.inl ⟨vs, (hX p hp) ▸ hvs, hun⟩⟩
    · cases hTeq
      exact ⟨p, hp, Or.inr ⟨T1, rfl, vs, (hT p hp) ▸ hvs, hun⟩⟩
  · rintro ⟨p, hp, ⟨vs, hvs, hun⟩ | ⟨T, hTeq, vs, hvs, hun⟩⟩
    · exact ⟨p, hp, Or.inl ⟨vs, (hX p hp).trans hvs, hun⟩⟩
    · cases hTeq
      exact ⟨p, hp, Or.inr ⟨T2, rfl, vs, (hT p hp).trans hvs, hun⟩⟩

theorem hasUnseen_cons_of_head_seen (c : String) (cats : List Value)
    (rest : List (String × List Value)) (Xtr : Table) (Xte : Option Table)
    (hhead : ¬((∃ vs, Xtr.getColVals c = .ok vs ∧ ∃ v ∈ vs, v ∉ cats) ∨
      (∃ T, Xte = some T ∧ ∃ vs, T.getColVals c = .ok vs ∧ ∃ v ∈ vs, v ∉ cats))) :
    hasUnseen ((c, cats) :: rest) Xtr Xte ↔ hasUnseen rest Xtr Xte := by
  unfold hasUnseen
  constructor
  · rintro ⟨p, hp, hcase⟩
    rcases List.mem_cons.mp hp with rfl | hp'
    · exact absurd hcase hhead
    · exact ⟨p, hp', hcase⟩
  · rintro ⟨p, hp', hcase⟩
    exact ⟨p, List.mem_cons_of_mem _ hp', hcase⟩

/-- C7: given that every column named in the label-encoding mapping is
present in the (transformed) train table and in the test table when one is
supplied, and the mapping's keys are distinct (a Python dict), the
label-encoding pass raises an UnseenLabel error exactly when some named
column contains a value absent from that column's caller-provided category
list — and succeeds (raising nothing at all) when every value is listed. -/
theorem C7_unseen_label_iff (m : List (String × List Value)) :
    ∀ (Xtr : Table) (Xte : Option Table),
      (m.map Prod.fst).Nodup →
      (∀ p ∈ m, ∃ vs, Xtr.getColVals p.1 = .ok vs) →
      (∀ T, Xte = some T → ∀ p ∈ m, ∃ vs, T.getColVals p.1 = .ok vs) →
      (¬ hasUnseen m Xtr Xte →
        ∃ out, labelEncodePass m Xtr Xte = .ok out) ∧
      (hasUnseen m Xtr Xte →
        ∃ v, labelEncodePass m Xtr Xte = .error (.unseenLabel v)) := by
  induction m with
  | nil =>
    intro Xtr Xte _ _ _
    refine ⟨fun _ => ⟨(Xtr, Xte), rfl⟩, fun hU => ?_⟩
    rcases hU with ⟨p, hp, _⟩
    simp at hp
  | cons q rest ih =>
    intro Xtr Xte hk htr hte
    obtain ⟨c, cats⟩ := q
    obtain ⟨vs, hvs⟩ := htr (c, cats) (List.mem_cons_self _ _)
    have hk' : (c :: rest.map Prod.fst).Nodup := by simpa using hk
    have hkc : c ∉ rest.map Prod.fst := (List.nodup_cons.mp hk').1
    have hkr : (rest.map Prod.fst).Nodup := (List.nodup_cons.mp hk').2
    have hne : ∀ p, p ∈ rest → p.1 ≠ c := by
      intro p hp hEq
      exact hkc (hEq ▸ List.mem_map_of_mem Prod.fst hp)
    by_cases hA : ∀ v ∈ vs, v ∈ cats
    · obtain ⟨trNew, htrNew⟩ := leTransform_ok_of (leFit cats) vs
        (fun v hv => (mem_leFit v cats).mpr (hA v hv))
      have hreads : ∀ p ∈ rest,
          Table.getColVals (Xtr.setCol c trNew) p.1 = Table.getColVals Xtr p.1 :=
        fun p hp => getColVals_setCol_ne Xtr c p.1 trNew (hne p hp)
      cases Xte with
      | none =>
        have hpass : labelEncodePass ((c, cats) :: rest) Xtr none
            = labelEncodePass rest (Xtr.setCol c trNew) none := by
          simp [labelEncodePass, hvs, htrNew, bindE]
        have hhead : ¬((∃ vs', Xtr.getColVals c = .ok vs' ∧ ∃ v ∈ vs', v ∉ cats) ∨
            (∃ T, (none : Option Table) = some T ∧
              ∃ vs', T.getColVals c = .ok vs' ∧ ∃ v ∈ vs', v ∉ cats)) := by
          rintro (⟨vs', hvs', v, hv, hnv⟩ | ⟨T, hT, _⟩)
          · rw [hvs] at hvs'
            cases hvs'
            exact hnv (hA v hv)
          · cases hT
        have hUhead := hasUnseen_cons_of_head_seen c cats rest Xtr none hhead
        have hUiff := hasUnseen_congr_none rest Xtr (Xtr.setCol c trNew) hreads
        have ihr := ih (Xtr.setCol c trNew) none hkr
          (fun p hp => by
            rw [hreads p hp]
            exact htr p (List.mem_cons_of_mem _ hp))
          (fun T hT => by cases hT)
        constructor
        · intro hnU
          rw [hpass]
          exact ihr.1 (fun hU2 => hnU (hUhead.mpr (hUiff.mp hU2)))
        · intro hU
          rw [hpass]
          exact ihr.2 (hUiff.mpr (hUhead.mp hU))
      | some T =>
        obtain ⟨ws, hws⟩ := hte T rfl (c, cats) (List.mem_cons_self _ _)
        by_cases hB : ∀ v ∈ ws, v ∈ cats
        · obtain ⟨teNew, hteNew⟩ := leTransform_ok_of (leFit cats) ws
            (fun v hv => (mem_leFit v cats).mpr (hB v hv))
          have hreadsT : ∀ p ∈ rest,
              Table.getColVals (T.setCol c teNew) p.1 = Table.getColVals T p.1 :=
            fun p hp => getColVals_setCol_ne T c p.1 teNew (hne p hp)
          have hpass : labelEncodePass ((c, cats) :: rest) Xtr (some T)
              = labelEncodePass rest (Xtr.setCol c trNew)
                  (some (T.setCol c teNew)) := by
            simp [labelEncodePass, hvs, htrNew, hws, hteNew, bindE]
          have hhead : ¬((∃ vs', Xtr.getColVals c = .ok vs' ∧ ∃ v ∈ vs', v ∉ cats) ∨
              (∃ T', (some T : Option Table) = some T' ∧
                ∃ vs', T'.getColVals c = .ok vs' ∧ ∃ v ∈ vs', v ∉ cats)) := by
            rintro (⟨vs', hvs', v, hv, hnv⟩ | ⟨T', hT', vs', hvs', v, hv, hnv⟩)
            · rw [hvs] at hvs'
              cases hvs'
              exact hnv (hA v hv)
            · cases hT'
              rw [hws] at hvs'
              cases hvs'
              exact hnv (hB v hv)
          have hUhead := hasUnseen_cons_of_head_seen c cats rest Xtr (some T) hhead
          have hUiff := hasUnseen_congr_some rest Xtr (Xtr.setCol c trNew) T
            (T.setCol c teNew) hreads hreadsT
          have ihr := ih (Xtr.setCol c trNew) (some (T.setCol c teNew)) hkr
            (fun p hp => by
              rw [hreads p hp]
              exact htr p (List.mem_cons_of_mem _ hp))
            (fun T' hT' p hp => by
              cases hT'
              rw [hreadsT p hp]
              exact hte T rfl p (List.mem_cons_of_mem _ hp))
          constructor
          · intro hnU
            rw [hpass]
            exact ihr.1 (fun hU2 => hnU (hUhead.mpr (hUiff.mp hU2)))
          · intro hU
            rw [hpass]
            exact ihr.2 (hUiff.mpr (hUhead.mp hU))
        · have hBex : ∃ v ∈ ws, v ∉ leFit cats := by
            push_neg at hB
            obtain ⟨v, hv, hnv⟩ := hB
            exact ⟨v, hv, fun hc => hnv ((mem_leFit v cats).mp hc)⟩
          obtain ⟨v0, hv0, hn0, herr⟩ := leTransform_error_of (leFit cats) ws hBex
          have hpass : labelEncodePass ((c, cats) :: rest) Xtr (some T)
              = .error (.unseenLabel v0) := by
            simp [labelEncodePass, hvs, htrNew, hws, herr, bindE]
          have hU : hasUnseen ((c, cats) :: rest) Xtr (some T) :=
            ⟨(c, cats), List.mem_cons_self _ _,
              Or.inr ⟨T, rfl, ws, hws,
                v0, hv0, fun hc => hn0 ((mem_leFit v0 cats).mpr hc)⟩⟩
          exact ⟨fun hnU => absurd hU hnU, fun _ => ⟨v0, hpass⟩⟩
    · have hAex : ∃ v ∈ vs, v ∉ leFit cats := by
        push_neg at hA
        obtain ⟨v, hv, hnv⟩ := hA
        exact ⟨v, hv, fun hc => hnv ((mem_leFit v cats).mp hc)⟩
      obtain ⟨v0, hv0, hn0, herr⟩ := leTransform_error_of (leFit cats) vs hAex
      have hpass : labelEncodePass ((c, cats) :: rest) Xtr Xte
          = .error (.unseenLabel v0) := by
        simp [labelEncodePass, hvs, herr, bindE]
      have hU : hasUnseen ((c, cats) :: rest) Xtr Xte :=
        ⟨(c, cats), List.mem_cons_self _ _,
          Or.inl ⟨vs, hvs, v0, hv0, fun hc => hn0 ((mem_leFit v0 cats).mpr hc)⟩⟩
      exact ⟨fun hnU => absurd hU hnU, fun _ => ⟨v0, hpass⟩⟩

/-- Witness for C7 at a concrete mapping and table (the spec scenario:
`grade` holds "Z", which is not among ["F","D","C","B","A"]). -/
theorem C7_witness :
    (¬ hasUnseen [("grade", [Value.str "F", Value.str "D", Value.str "C",
        Value.str "B", Value.str "A"])]
        ⟨[⟨"grade", Dtype.object, [Value.str "Z"]⟩]⟩ none →
      ∃ out, labelEncodePass
        [("grade", [Value.str "F", Value.str "D", Value.str "C",
          Value.str "B", Value.str "A"])]
        ⟨[⟨"grade", Dtype.object, [Value.str "Z"]⟩]⟩ none = .ok out) ∧
    (hasUnseen [("grade", [Value.str "F", Value.str "D", Value.str "C",
        Value.str "B", Value.str "A"])]
        ⟨[⟨"grade", Dtype.object, [Value.str "Z"]⟩]⟩ none →
      ∃ v, labelEncodePass
        [("grade", [Value.str "F", Value.str "D", Value.str "C",
          Value.str "B", Value.str "A"])]
        ⟨[⟨"grade", Dtype.object, [Value.str "Z"]⟩]⟩ none
        = .error (.unseenLabel v)) :=
  C7_unseen_label_iff
    [("grade", [Value.str "F", Value.str "D", Value.str "C",
      Value.str "B", Value.str "A"])]
    ⟨[⟨"grade", Dtype.object, [Value.str "Z"]⟩]⟩ none
    (by decide)
    (by
      intro p hp
      simp only [List.mem_singleton] at hp
      subst hp
      exact ⟨[Value.str "Z"], rfl⟩)
    (fun T hT => by cases hT)

end Nursepy
